import Mathlib

/-!
Shallow embedding of the VL53L5CX time-of-flight core:

* the results decoder (`results_data.rs`): raw flat measurement buffers are
  turned into DIM×DIM (zone metadata) and TARGETS×DIM×DIM (per-target)
  matrices, with a typed status classification and a sign check on distances;
* the multi-sensor ranging coordinator (`ranging_flock.rs`): N sensor handles
  behind one shared interrupt line, a pending queue drained LIFO.

Rust panics (failed `assert!`, slice/index out of range, `ArrayVec::push`
overflow, the `panic!` arm of `TargetStatus::from_uld`) are modelled as
`none` / dedicated `panic` outcomes; recoverable `Result` errors are modelled
explicitly.  Machine integers are modelled as `Nat` (u8/u16/u32) and `Int`
(i16/i8); none of the modelled operations can overflow their Rust widths.
-/

namespace Zoo

/-- Option-valued map over a list.  Models a Rust `for` loop whose body can
panic: a panic anywhere makes the whole computation `none`, otherwise the
list of produced elements is returned in order. -/
def mapO {α β : Type} (g : α → Option β) : List α → Option (List β)
  | [] => some []
  | x :: xs => (g x).bind fun y => (mapO g xs).bind fun ys => some (y :: ys)

/-! ## Results decoder (`src/tof/vl53l5cx_uld/src/results_data.rs`) -/

/-- Model of `TargetStatus` (results_data.rs lines 304-311).  The payload byte is kept
for `Valid`, `HalfValid` and `Other`, as in the source. -/
inductive TargetStatus : Type where
  | Valid : Nat → TargetStatus
  | HalfValid : Nat → TargetStatus
  | Invalid : TargetStatus
  | Other : Nat → TargetStatus
deriving DecidableEq, Repr

/-- Model of `TargetStatus::from_uld` (results_data.rs lines 315-323).  The `match`
arms in source order: 5, 6|9, 255, 0..=13, and a catch-all `panic!`
(modelled as `none`). -/
def TargetStatus.from_uld (v : Nat) : Option TargetStatus :=
  if v = 5 then some (TargetStatus.Valid v)
  else if v = 6 ∨ v = 9 then some (TargetStatus.HalfValid v)
  else if v = 255 then some TargetStatus.Invalid
  else if v ≤ 13 then some (TargetStatus.Other v)
  else none

/-- The closure fed to `into_matrix_map_o` for `distance_mm`
(results_data.rs lines 165-167): `assert!(v >= 0, ...); v as u16`.
The assert failure is modelled as `none`; for `0 ≤ v` with `v : i16`,
`v as u16` is numerically `v`, i.e. `v.toNat`. -/
def distance_from_i16 (v : Int) : Option Nat :=
  if 0 ≤ v then some v.toNat else none

/-- Model of `into_matrix_map_o` (results_data.rs lines 121-129).
`&raw[..DIM*DIM*TARGETS]` panics when the buffer is shorter than the slice
(modelled by the length guard); then `out[r][c] = f(raw[(r*DIM+c)*TARGETS +
offset])` over the sliced prefix.  `f` is `Option`-valued because the
distance closure and `from_uld` can panic. -/
def into_matrix_map_o {IN OUT : Type} (DIM TARGETS : Nat) (raw : List IN)
    (offset : Nat) (f : IN → Option OUT) : Option (List (List OUT)) :=
  if DIM * DIM * TARGETS ≤ raw.length then
    mapO (fun r => mapO (fun c =>
        ((raw.take (DIM * DIM * TARGETS)).get? ((r * DIM + c) * TARGETS + offset)).bind f)
      (List.range DIM)) (List.range DIM)
  else none

/-- Model of `into_matrix_o` (results_data.rs lines 132-134): `into_matrix_map_o` with
the identity mapping (which never panics, hence `some`). -/
def into_matrix_o {X : Type} (DIM TARGETS : Nat) (raw : List X) (offset : Nat) :
    Option (List (List X)) :=
  into_matrix_map_o DIM TARGETS raw offset some

/-- Model of `into_matrix` (results_data.rs lines 136-144): zone metadata,
`out[r][c] = raw[r*DIM+c]` over the `DIM*DIM` prefix; `TARGETS` not involved. -/
def into_matrix {X : Type} (DIM : Nat) (raw : List X) : Option (List (List X)) :=
  if DIM * DIM ≤ raw.length then
    mapO (fun r => mapO (fun c =>
        (raw.take (DIM * DIM)).get? (r * DIM + c))
      (List.range DIM)) (List.range DIM)
  else none

/-- The raw ULD C buffer struct `VL53L5CX_ResultsData` as consumed by `feed`:
flat vectors plus the scalar silicon temperature.  All features enabled. -/
structure VL53L5CX_ResultsData : Type where
  ambient_per_spad : List Nat
  nb_spads_enabled : List Nat
  nb_target_detected : List Nat
  target_status : List Nat
  distance_mm : List Int
  range_sigma_mm : List Nat
  reflectance : List Nat
  signal_per_spad : List Nat
  silicon_temp_degc : Int
deriving DecidableEq, Repr

/-- Model of `ResultsData<DIM>` (results_data.rs lines 42-65), all features enabled.
Zone metadata is DIM×DIM; per-target fields are TARGETS×DIM×DIM
(target index outermost, as in `[[[_; DIM]; DIM]; TARGETS]`). -/
structure ResultsData : Type where
  ambient_per_spad : List (List Nat)
  spads_enabled : List (List Nat)
  targets_detected : List (List Nat)
  target_status : List (List (List TargetStatus))
  distance_mm : List (List (List Nat))
  range_sigma_mm : List (List (List Nat))
  reflectance : List (List (List Nat))
  signal_per_spad : List (List (List Nat))
deriving DecidableEq, Repr

/-- Model of `ResultsData::feed` (results_data.rs lines 103-178), reached through
`ResultsData::from` = `empty()` + `feed` — every field of `empty()` is fully
overwritten by `feed`, so the decode is modelled as a direct construction.
The source loops `for i in 0..TARGETS` filling each per-target field at
offset `i`; here the same calls are grouped per field (the produced value,
and whether any call panics, are identical).  Returns the decoded matrices
and the pass-through temperature `TempC(silicon_temp_degc)`. -/
def feed (DIM TARGETS : Nat) (raw : VL53L5CX_ResultsData) :
    Option (ResultsData × Int) :=
  (into_matrix DIM raw.ambient_per_spad).bind fun amb =>
  (into_matrix DIM raw.nb_spads_enabled).bind fun spads =>
  (into_matrix DIM raw.nb_target_detected).bind fun tdet =>
  (mapO (fun i => into_matrix_map_o DIM TARGETS raw.target_status i TargetStatus.from_uld)
      (List.range TARGETS)).bind fun tstat =>
  (mapO (fun i => into_matrix_map_o DIM TARGETS raw.distance_mm i distance_from_i16)
      (List.range TARGETS)).bind fun dist =>
  (mapO (fun i => into_matrix_o DIM TARGETS raw.range_sigma_mm i)
      (List.range TARGETS)).bind fun sigma =>
  (mapO (fun i => into_matrix_o DIM TARGETS raw.reflectance i)
      (List.range TARGETS)).bind fun refl =>
  (mapO (fun i => into_matrix_o DIM TARGETS raw.signal_per_spad i)
      (List.range TARGETS)).bind fun sig =>
  some (ResultsData.mk amb spads tdet tstat dist sigma refl sig,
        raw.silicon_temp_degc)

/-- Index a TARGETS×DIM×DIM matrix at `[t][r][c]`. -/
def mat3At {α : Type} (m : List (List (List α))) (t r c : Nat) : Option α :=
  (m.get? t).bind fun mt => (mt.get? r).bind fun row => row.get? c

/-! ## Ranging coordinator (`src/tof/vl53l5cx/src/ranging_flock.rs`)

The coordinator owns `ulds: [State_Ranging<DIM>; N]`, the interrupt input,
and `pending: ArrayVec<(usize, ResultsData, TempC, Instant), N>`.

The external collaborators — `State_Ranging::is_ready()`, its `get_data()`
fetch, and the wall clock — are modelled as an oracle: `oracle i k` is the
combined outcome of the `k`-th readiness check of sensor `i` (0-based)
together with the fetch that follows when it reports ready.  `R` stands for
a fetched `(ResultsData, TempC)` payload, `E` for the driver error type.
Timestamps are a logical event counter `clock`, ticked exactly at the
`let time_stamp = now();` capture in `get_data`.  The coordinator state
tracks, per sensor, how many readiness checks were made (`counts`), the
pending queue (`ArrayVec` as a list: push appends at the end, panicking at
capacity `N`; pop removes the last element), and the clock. -/

/-- Outcome of one readiness check (and, if ready, the following fetch)
of one sensor. -/
inductive SensorResp (R E : Type) : Type where
  | notReady : SensorResp R E
  | ready : R → SensorResp R E
  | readyFetchErr : E → SensorResp R E
  | readyErr : E → SensorResp R E
deriving DecidableEq, Repr

/-- Coordinator state: per-sensor readiness-check counts, the pending
queue of `(sensor index, payload, timestamp)` tuples, and the logical clock. -/
structure FlockState (R : Type) : Type where
  counts : List Nat
  pending : List (Nat × R × Nat)
  clock : Nat
deriving DecidableEq, Repr

/-- Outcome of the readiness scan in `get_data` (ranging_flock.rs lines
91-101): completed, error propagated by `?` (state kept, since `self` is
borrowed mutably), or panic (`ArrayVec::push` over capacity). -/
inductive ScanOut (R E : Type) : Type where
  | ok : FlockState R → ScanOut R E
  | fail : E → FlockState R → ScanOut R E
  | panic : ScanOut R E
deriving DecidableEq, Repr

/-- One body of the scan loop (ranging_flock.rs lines 92-100), for sensor
`i`:  `if uld.is_ready()? { let time_stamp = now(); let (rd,tempC) =
uld.get_data()?; self.pending.push((i,rd,tempC,time_stamp)); }`.
`N` is the `ArrayVec` capacity; `is_ready` errors propagate before the
clock tick, fetch errors after it, and only complete tuples are pushed. -/
def checkOne {R E : Type} (oracle : Nat → Nat → SensorResp R E) (N i : Nat)
    (st : FlockState R) : ScanOut R E :=
  let k := st.counts.getD i 0
  let st1 : FlockState R := FlockState.mk (st.counts.set i (k + 1)) st.pending st.clock
  match oracle i k with
  | SensorResp.notReady => ScanOut.ok st1
  | SensorResp.ready r =>
      let ts := st1.clock
      if st1.pending.length < N then
        ScanOut.ok (FlockState.mk st1.counts (st1.pending ++ [(i, r, ts)]) (st1.clock + 1))
      else ScanOut.panic
  | SensorResp.readyFetchErr e =>
      ScanOut.fail e (FlockState.mk st1.counts st1.pending (st1.clock + 1))
  | SensorResp.readyErr e => ScanOut.fail e st1

/-- The scan `for (i,uld) in self.ulds.iter_mut().enumerate().rev() { ... }`
(ranging_flock.rs line 91), processing the given index list in order;
`get_data` passes the descending list `[N-1, ..., 0]`. -/
def scanDesc {R E : Type} (oracle : Nat → Nat → SensorResp R E) (N : Nat) :
    List Nat → FlockState R → ScanOut R E
  | [], st => ScanOut.ok st
  | i :: rest, st =>
      match checkOne oracle N i st with
      | ScanOut.ok st1 => scanDesc oracle N rest st1
      | out => out

/-- Outcome of `get_data`: a returned tuple, a propagated error, a panic, or
a suspension on `pinINT.wait_for_any_edge()` (for the one-iteration step,
`wait` carries the state at the suspension point; for the fuelled loop it
means the fuel ran out while suspended). -/
inductive GdOut (R E : Type) : Type where
  | ret : Nat × R × Nat → FlockState R → GdOut R E
  | fail : E → FlockState R → GdOut R E
  | panic : GdOut R E
  | wait : FlockState R → GdOut R E
deriving DecidableEq, Repr

/-- One iteration of the `loop` in `get_data` (ranging_flock.rs lines
89-125): scan all sensors index-descending; then `if let Some(tuple) =
self.pending.pop() { return Ok(tuple) }` (pop = remove last); else
`assert!(self.pending.is_empty())` (true by construction here) and suspend
on `wait_for_any_edge`. -/
def get_data_step {R E : Type} (oracle : Nat → Nat → SensorResp R E) (N : Nat)
    (st : FlockState R) : GdOut R E :=
  match scanDesc oracle N (List.range N).reverse st with
  | ScanOut.panic => GdOut.panic
  | ScanOut.fail e st1 => GdOut.fail e st1
  | ScanOut.ok st1 =>
      match st1.pending.getLast? with
      | some t => GdOut.ret t (FlockState.mk st1.counts st1.pending.dropLast st1.clock)
      | none => GdOut.wait st1

/-- The `loop` of `get_data`, fuelled: each unit of fuel allows one
iteration; running out of fuel while about to suspend yields `wait`. -/
def get_data_loop {R E : Type} (oracle : Nat → Nat → SensorResp R E) (N : Nat) :
    Nat → FlockState R → GdOut R E
  | 0, st => GdOut.wait st
  | fuel + 1, st =>
      match get_data_step oracle N st with
      | GdOut.wait st1 => get_data_loop oracle N fuel st1
      | out => out

/-- Model of `RangingFlock::get_data` (ranging_flock.rs lines 61-126):
`assert!(self.ulds.len() > 1); // TEMP` (line 88) panics before any
readiness check whenever `N ≤ 1`; then the loop runs.  (The trace block at
lines 79-86 is under `#[cfg(not(all()))]`, i.e. compiled out.) -/
def get_data {R E : Type} (oracle : Nat → Nat → SensorResp R E) (N fuel : Nat)
    (st : FlockState R) : GdOut R E :=
  if N ≤ 1 then GdOut.panic
  else get_data_loop oracle N fuel st

/-- Run `m` consecutive `get_data` calls (each with the given fuel),
collecting the returned tuples; `none` if any call does not return a tuple. -/
def run_calls {R E : Type} (oracle : Nat → Nat → SensorResp R E) (N fuel : Nat) :
    Nat → FlockState R → Option (List (Nat × R × Nat) × FlockState R)
  | 0, st => some ([], st)
  | m + 1, st =>
      match get_data oracle N fuel st with
      | GdOut.ret t st1 =>
          (run_calls oracle N fuel m st1).bind fun p => some (t :: p.1, p.2)
      | _ => none

/-- Modelled from the spec: `z_array_try_map::turn_to_something`, whose
source is outside the provided tree (only its callers in ranging_flock.rs
are).  Per the spec's contracts for `start`/`stop` ("fails atomically if any
single sensor's start fails", "if any individual stop fails, the condition
is propagated"), it is a try-map over the sensor array: apply the fallible
function to each element in order, stopping at the first error. -/
def turn_to_something {α β E : Type} (f : α → Except E β) : List α → Except E (List β)
  | [] => Except.ok []
  | x :: xs =>
      match f x with
      | Except.error e => Except.error e
      | Except.ok y =>
          match turn_to_something f xs with
          | Except.error e => Except.error e
          | Except.ok ys => Except.ok (y :: ys)

/-- Model of `RangingFlock::start` (ranging_flock.rs lines 42-53): turn every handle
into ranging state via `turn_to_something`, keeping the interrupt line and
an empty pending queue.  `startH` models `|x| x.into_uld().start_ranging(cfg)`;
`V` is the `VL` handle type, `H` the `State_Ranging` type, `P` the pin type. -/
def RangingFlock.start {V H P E : Type} (startH : V → Except E H)
    (vls : List V) (pinINT : P) : Except E (List H × P) :=
  match turn_to_something startH vls with
  | Except.error e => Except.error e
  | Except.ok ulds => Except.ok (ulds, pinINT)

/-- Model of `RangingFlock::stop` (ranging_flock.rs lines 128-135):
`turn_to_something(self.ulds, |x| { let uld = x.stop()?; Ok(VL::recreate(uld)) })`,
then return the handles with the interrupt line.  `stopH` models
`State_Ranging::stop`, `recreate` models `VL::recreate`. -/
def RangingFlock.stop {H U V P E : Type} (stopH : H → Except E U)
    (recreate : U → V) (ulds : List H) (pinINT : P) : Except E (List V × P) :=
  match turn_to_something (fun x =>
      match stopH x with
      | Except.error e => Except.error e
      | Except.ok uld => Except.ok (recreate uld)) ulds with
  | Except.error e => Except.error e
  | Except.ok vls => Except.ok (vls, pinINT)

/-! ## Concrete fixtures used by the claim theorems and their witnesses -/

/-- A known TARGETS×DIM×DIM distance matrix (DIM = 4, TARGETS = 2): zone
(r=1,c=2) has target-0 distance 1234 and target-1 distance 0; every other
cell holds its own flat index, so all cells are distinguishable. -/
def MC1 (t r c : Nat) : Int :=
  if t = 0 ∧ r = 1 ∧ c = 2 then 1234
  else if t = 1 ∧ r = 1 ∧ c = 2 then 0
  else ((r * 4 + c) * 2 + t : Nat)

/-- The raw buffer obtained by laying `MC1` out in the vendor flat layout
(flat index `k = (r*4+c)*2 + t`), with valid contents for all other fields. -/
def rawC1 : VL53L5CX_ResultsData :=
  VL53L5CX_ResultsData.mk
    (List.replicate 16 7) (List.replicate 16 8) (List.replicate 16 2)
    (List.replicate 32 5)
    ((List.range 32).map fun k => MC1 (k % 2) (k / 2 / 4) (k / 2 % 4))
    (List.replicate 32 3) (List.replicate 32 4) (List.replicate 32 6)
    25

/-- Like `rawC1` but with one negative raw distance (flat index 20). -/
def rawC3neg : VL53L5CX_ResultsData :=
  VL53L5CX_ResultsData.mk
    (List.replicate 16 7) (List.replicate 16 8) (List.replicate 16 2)
    (List.replicate 32 5)
    ((List.range 32).map fun k => if k = 20 then (-5 : Int) else 7)
    (List.replicate 32 3) (List.replicate 32 4) (List.replicate 32 6)
    25

/-- Like `rawC3neg` but with the offending value made non-negative. -/
def rawC3pos : VL53L5CX_ResultsData :=
  VL53L5CX_ResultsData.mk
    (List.replicate 16 7) (List.replicate 16 8) (List.replicate 16 2)
    (List.replicate 32 5)
    ((List.range 32).map fun k => if k = 20 then (5 : Int) else 7)
    (List.replicate 32 3) (List.replicate 32 4) (List.replicate 32 6)
    25

/-- Extension of `rawC1` with junk appended beyond every needed prefix — including a
negative distance at flat index 32, past the `DIM*DIM*TARGETS` prefix. -/
def rawC5b : VL53L5CX_ResultsData :=
  VL53L5CX_ResultsData.mk
    (List.replicate 16 7 ++ [991]) (List.replicate 16 8 ++ [992])
    (List.replicate 16 2 ++ [993])
    (List.replicate 32 5 ++ [77])
    ((List.range 32).map (fun k => MC1 (k % 2) (k / 2 / 4) (k / 2 % 4)) ++ [-44])
    (List.replicate 32 3 ++ [994]) (List.replicate 32 4 ++ [995])
    (List.replicate 32 6 ++ [996])
    25

/-- C4 scenario oracle (N = 3): sensors 2 and 0 are ready at their first
readiness check (payloads 20 and 10), sensor 1 is not; afterwards nothing
new becomes ready. -/
def oracleC4 : Nat → Nat → SensorResp Nat Nat := fun i k =>
  if k = 0 ∧ i = 2 then SensorResp.ready 20
  else if k = 0 ∧ i = 0 then SensorResp.ready 10
  else SensorResp.notReady

/-- Fresh coordinator state for three sensors. -/
def st3 : FlockState Nat := FlockState.mk [0, 0, 0] [] 0

/-- C6 scenario oracle (N = 3): sensor 2 ready (payload 20), sensor 1
reports ready but its fetch fails with error 99, sensor 0 would be ready
(payload 10) but is never reached. -/
def oracleC6 : Nat → Nat → SensorResp Nat Nat := fun i k =>
  if k = 0 ∧ i = 2 then SensorResp.ready 20
  else if k = 0 ∧ i = 1 then SensorResp.readyFetchErr 99
  else if k = 0 ∧ i = 0 then SensorResp.ready 10
  else SensorResp.notReady

/-- C7 witness oracle (N = 3): every sensor ready at its first check with
payload `10*i`, nothing afterwards. -/
def oracleC7 : Nat → Nat → SensorResp Nat Nat := fun i k =>
  if k = 0 then SensorResp.ready (10 * i) else SensorResp.notReady

/-- The pending entries a scan of `idxs` (in order) pushes when every
scanned sensor is ready with payload `r i`: one complete tuple per sensor,
timestamped by consecutive clock ticks. -/
def pushesFrom {R : Type} (r : Nat → R) : List Nat → Nat → List (Nat × R × Nat)
  | [], _ => []
  | i :: rest, clock => (i, r i, clock) :: pushesFrom r rest (clock + 1)

/-- Increment the readiness-check count of each index in turn. -/
def bumpCounts : List Nat → List Nat → List Nat
  | counts, [] => counts
  | counts, i :: rest => bumpCounts (counts.set i (counts.getD i 0 + 1)) rest

end Zoo

namespace Zoo

/-! ## Helper lemmas -/

theorem mapO_nil {α β : Type} (g : α → Option β) : mapO g [] = some [] := rfl

theorem mapO_length {α β : Type} {g : α → Option β} :
    ∀ {l : List α} {out : List β}, mapO g l = some out → out.length = l.length := by
  intro l
  induction l with
  | nil => intro out h; simp [mapO] at h; simp [← h]
  | cons x xs ih =>
      intro out h
      simp only [mapO, Option.bind_eq_some] at h
      obtain ⟨y, hy, ys, hys, hout⟩ := h
      cases hout
      simp [ih hys]

theorem mapO_get {α β : Type} {g : α → Option β} :
    ∀ {l : List α} {out : List β}, mapO g l = some out →
      ∀ {j : Nat} {a : α}, l.get? j = some a → out.get? j = g a := by
  intro l
  induction l with
  | nil => intro out h j a ha; simp at ha
  | cons x xs ih =>
      intro out h j a ha
      simp only [mapO, Option.bind_eq_some] at h
      obtain ⟨y, hy, ys, hys, hout⟩ := h
      cases hout
      cases j with
      | zero =>
          rw [List.get?_cons_zero] at ha
          cases ha
          rw [List.get?_cons_zero, hy]
      | succ j =>
          rw [List.get?_cons_succ] at ha
          rw [List.get?_cons_succ]
          exact ih hys ha

theorem mapO_congr {α β : Type} {g₁ g₂ : α → Option β} :
    ∀ {l : List α}, (∀ x ∈ l, g₁ x = g₂ x) → mapO g₁ l = mapO g₂ l := by
  intro l
  induction l with
  | nil => intro _; rfl
  | cons x xs ih =>
      intro h
      simp only [mapO]
      rw [h x (by simp), ih (fun y hy => h y (by simp [hy]))]

theorem turn_to_something_ok {α β E : Type} (f : α → Except E β) (u : α → β) :
    ∀ l : List α, (∀ x ∈ l, f x = Except.ok (u x)) →
      turn_to_something f l = Except.ok (l.map u) := by
  intro l
  induction l with
  | nil => intro _; rfl
  | cons x xs ih =>
      intro h
      simp only [turn_to_something, h x (by simp), ih (fun y hy => h y (by simp [hy])),
        List.map_cons]

theorem turn_to_something_err {α β E : Type} (f : α → Except E β) :
    ∀ (pre : List α) (x : α) (post : List α) (e : E),
      (∀ y ∈ pre, ∃ z, f y = Except.ok z) → f x = Except.error e →
      turn_to_something f (pre ++ x :: post) = Except.error e := by
  intro pre
  induction pre with
  | nil => intro x post e _ hx; simp only [List.nil_append, turn_to_something, hx]
  | cons y ys ih =>
      intro x post e hpre hx
      obtain ⟨z, hz⟩ := hpre y (by simp)
      simp only [List.cons_append, turn_to_something, hz, List.append_eq]
      rw [ih x post e (fun w hw => hpre w (by simp [hw])) hx]

theorem take_guard_congr {X Y : Type} (n : Nat) (F : List X → Option Y)
    {l1 l2 : List X} (h : l1.take n = l2.take n) :
    (if n ≤ l1.length then F (l1.take n) else none) =
    (if n ≤ l2.length then F (l2.take n) else none) := by
  have hlen := congrArg List.length h
  rw [List.length_take, List.length_take] at hlen
  by_cases h1 : n ≤ l1.length
  · have h2 : n ≤ l2.length := by omega
    rw [if_pos h1, if_pos h2, h]
  · have h2 : ¬ n ≤ l2.length := by omega
    rw [if_neg h1, if_neg h2]

theorem into_matrix_congr {X : Type} (DIM : Nat) {l1 l2 : List X}
    (h : l1.take (DIM * DIM) = l2.take (DIM * DIM)) :
    into_matrix DIM l1 = into_matrix DIM l2 :=
  take_guard_congr (DIM * DIM)
    (fun pre => mapO (fun r => mapO (fun c => pre.get? (r * DIM + c))
      (List.range DIM)) (List.range DIM)) h

theorem into_matrix_map_o_congr {IN OUT : Type} (DIM TARGETS : Nat)
    (offset : Nat) (f : IN → Option OUT) {l1 l2 : List IN}
    (h : l1.take (DIM * DIM * TARGETS) = l2.take (DIM * DIM * TARGETS)) :
    into_matrix_map_o DIM TARGETS l1 offset f =
      into_matrix_map_o DIM TARGETS l2 offset f :=
  take_guard_congr (DIM * DIM * TARGETS)
    (fun pre => mapO (fun r => mapO (fun c =>
        (pre.get? ((r * DIM + c) * TARGETS + offset)).bind f)
      (List.range DIM)) (List.range DIM)) h

theorem into_matrix_o_congr {X : Type} (DIM TARGETS : Nat) (offset : Nat)
    {l1 l2 : List X}
    (h : l1.take (DIM * DIM * TARGETS) = l2.take (DIM * DIM * TARGETS)) :
    into_matrix_o DIM TARGETS l1 offset = into_matrix_o DIM TARGETS l2 offset :=
  into_matrix_map_o_congr DIM TARGETS offset some h

theorem flat_index_lt {DIM TARGETS r c offset : Nat}
    (hr : r < DIM) (hc : c < DIM) (hoff : offset < TARGETS) :
    (r * DIM + c) * TARGETS + offset < DIM * DIM * TARGETS := by
  have h1 : r * DIM + c < DIM * DIM :=
    calc r * DIM + c < r * DIM + DIM := Nat.add_lt_add_left hc _
    _ = (r + 1) * DIM := by ring
    _ ≤ DIM * DIM := Nat.mul_le_mul_right DIM hr
  calc (r * DIM + c) * TARGETS + offset
      < (r * DIM + c) * TARGETS + TARGETS := Nat.add_lt_add_left hoff _
    _ = (r * DIM + c + 1) * TARGETS := by ring
    _ ≤ DIM * DIM * TARGETS := Nat.mul_le_mul_right TARGETS h1

/-- Indexing a decoded per-target matrix: cell `[r][c]` of the matrix built
at target offset `offset` is exactly `f` of the raw element at flat index
`(r*DIM+c)*TARGETS + offset`. -/
theorem into_matrix_map_o_at {IN OUT : Type} {DIM TARGETS : Nat}
    {raw : List IN} {offset : Nat} {f : IN → Option OUT}
    {out : List (List OUT)}
    (h : into_matrix_map_o DIM TARGETS raw offset f = some out)
    {r c : Nat} (hr : r < DIM) (hc : c < DIM) (hoff : offset < TARGETS) :
    (out.get? r).bind (fun row => row.get? c) =
      (raw.get? ((r * DIM + c) * TARGETS + offset)).bind f := by
  unfold into_matrix_map_o at h
  by_cases hlen : DIM * DIM * TARGETS ≤ raw.length
  · rw [if_pos hlen] at h
    have hout : out.length = DIM := by
      rw [mapO_length h, List.length_range]
    have hrow := mapO_get h (List.get?_range hr)
    cases hmrow : mapO (fun c =>
        ((raw.take (DIM * DIM * TARGETS)).get? ((r * DIM + c) * TARGETS + offset)).bind f)
        (List.range DIM) with
    | none =>
        rw [hmrow, List.get?_eq_none] at hrow
        omega
    | some row =>
        rw [hmrow] at hrow
        have hcell := mapO_get hmrow (List.get?_range hc)
        rw [hrow, Option.some_bind, hcell,
          List.get?_take (flat_index_lt hr hc hoff)]
  · rw [if_neg hlen] at h
    exact absurd h (by simp)

/-! ## Claim theorems -/

set_option maxRecDepth 16000

/-- C2: the target-status classifier is total over bytes 0–255:
classify(5) = Valid, classify(6) = classify(9) = HalfValid,
classify(255) = Invalid, classify(v) = Other for v ∈ 0..13 outside
{5,6,9}, and classify panics (modelled `none`) for every v ∈ 14..254. -/
theorem C2_target_status_classifier :
    TargetStatus.from_uld 5 = some (TargetStatus.Valid 5) ∧
    TargetStatus.from_uld 6 = some (TargetStatus.HalfValid 6) ∧
    TargetStatus.from_uld 9 = some (TargetStatus.HalfValid 9) ∧
    TargetStatus.from_uld 255 = some TargetStatus.Invalid ∧
    (∀ v : Nat, v < 14 → v ≠ 5 → v ≠ 6 → v ≠ 9 →
      TargetStatus.from_uld v = some (TargetStatus.Other v)) ∧
    (∀ v : Nat, v < 255 → 14 ≤ v → TargetStatus.from_uld v = none) := by
  refine ⟨rfl, rfl, rfl, rfl, ?_, ?_⟩ <;> decide

/-- Witness for C2 at concrete bytes 0 and 100. -/
theorem C2_target_status_classifier_witness :
    TargetStatus.from_uld 0 = some (TargetStatus.Other 0) ∧
    TargetStatus.from_uld 100 = none :=
  ⟨C2_target_status_classifier.2.2.2.2.1 0 (by decide) (by decide) (by decide) (by decide),
   C2_target_status_classifier.2.2.2.2.2 100 (by decide) (by decide)⟩

/-- C3: the distance mapping keeps every non-negative raw i16 value
unchanged (as unsigned), fails fatally (modelled `none`) exactly on
negative values, and at the decoder level a buffer with one negative raw
distance fails to decode while the same buffer with that value made
non-negative decodes. -/
theorem C3_distance_sign :
    (∀ v : Int, 0 ≤ v → distance_from_i16 v = some v.toNat) ∧
    (∀ v : Int, distance_from_i16 v = none ↔ v < 0) ∧
    feed 4 2 rawC3neg = none ∧
    (feed 4 2 rawC3pos).isSome = true := by
  refine ⟨?_, ?_, by decide, by decide⟩
  · intro v hv; simp [distance_from_i16, hv]
  · intro v
    by_cases hv : 0 ≤ v
    · simp only [distance_from_i16, if_pos hv]
      constructor
      · intro h; exact absurd h (by simp)
      · intro h; omega
    · simp only [distance_from_i16, if_neg hv]
      constructor
      · intro _; omega
      · intro _; trivial

/-- Witness for C3 at concrete values 1234 and -5. -/
theorem C3_distance_sign_witness :
    distance_from_i16 1234 = some 1234 ∧ distance_from_i16 (-5) = none :=
  ⟨C3_distance_sign.1 1234 (by decide), (C3_distance_sign.2.1 (-5)).mpr (by decide)⟩

/-- C4: with three sensors, where sensors 2 and 0 are both ready before the
first call and no new data arrives, the first two `get_data` calls return
sensor 0's result (payload 10) and then sensor 2's (payload 20): the
descending scan pushes sensor 2 first and sensor 0 last, and the pending
queue pops last-in-first-out. -/
theorem C4_lifo_delivery_order :
    get_data oracleC4 3 1 st3 =
      GdOut.ret (0, 10, 1) (FlockState.mk [1, 1, 1] [(2, 20, 0)] 2) ∧
    get_data oracleC4 3 1 (FlockState.mk [1, 1, 1] [(2, 20, 0)] 2) =
      GdOut.ret (2, 20, 0) (FlockState.mk [2, 2, 2] [] 2) := by
  exact ⟨by decide, by decide⟩

/-- C9: on success `stop` stops every managed sensor and returns all N
handles (the per-sensor stop applied to each, in order) together with the
interrupt line; if any individual stop fails — all earlier ones having
succeeded — the error is propagated instead of a result. -/
theorem C9_stop_returns_all_or_propagates :
    (∀ (H U V P E : Type) (stopH : H → Except E U) (recreate : U → V) (u : H → U)
        (ulds : List H) (pin : P),
        (∀ x ∈ ulds, stopH x = Except.ok (u x)) →
        RangingFlock.stop stopH recreate ulds pin =
          Except.ok (ulds.map (fun x => recreate (u x)), pin)) ∧
    (∀ (H U V P E : Type) (stopH : H → Except E U) (recreate : U → V)
        (pre : List H) (x : H) (post : List H) (e : E) (pin : P),
        (∀ y ∈ pre, ∃ z, stopH y = Except.ok z) →
        stopH x = Except.error e →
        RangingFlock.stop stopH recreate (pre ++ x :: post) pin = Except.error e) := by
  constructor
  · intro H U V P E stopH recreate u ulds pin h
    unfold RangingFlock.stop
    rw [turn_to_something_ok _ (fun x => recreate (u x)) ulds (fun x hx => by rw [h x hx])]
  · intro H U V P E stopH recreate pre x post e pin hpre hx
    unfold RangingFlock.stop
    rw [turn_to_something_err _ pre x post e
      (fun y hy => by obtain ⟨z, hz⟩ := hpre y hy; exact ⟨recreate z, by rw [hz]⟩)
      (by rw [hx])]

/-- Witness for C9: two sensors stopping cleanly, and a flock whose second
sensor fails to stop. -/
theorem C9_stop_returns_all_or_propagates_witness :
    RangingFlock.stop (fun n : Nat => (Except.ok (n + 1) : Except Nat Nat))
        (fun n => n * 10) [1, 2] 0 = Except.ok ([20, 30], 0) ∧
    RangingFlock.stop (fun n : Nat => if n = 2 then Except.error 5 else
        (Except.ok (n + 1) : Except Nat Nat)) (fun n => n * 10) [1, 2, 3] 0 =
      Except.error 5 :=
  ⟨C9_stop_returns_all_or_propagates.1 Nat Nat Nat Nat Nat _ _ (fun n => n + 1) [1, 2] 0
      (by intro x hx; fin_cases hx <;> rfl),
   C9_stop_returns_all_or_propagates.2 Nat Nat Nat Nat Nat _ _ [1] 2 [3] 5 0
      (by intro y hy; fin_cases hy; exact ⟨2, rfl⟩) (by rfl)⟩

/-- C10: for a flock of N ≤ 1 sensors every `get_data` call panics on
`assert!(self.ulds.len() > 1)` before any readiness check (the outcome is
independent of the oracle), even though `start` accepts a single sensor. -/
theorem C10_flock_of_one_panics :
    (∀ (R E : Type) (oracle : Nat → Nat → SensorResp R E) (N fuel : Nat)
        (st : FlockState R), N ≤ 1 → get_data oracle N fuel st = GdOut.panic) ∧
    RangingFlock.start (fun v : Nat => (Except.ok v : Except Unit Nat)) [7] 0 =
      Except.ok ([7], 0) := by
  constructor
  · intro R E oracle N fuel st h
    simp [get_data, h]
  · rfl

/-- Witness for C10 at N = 1 with an always-ready oracle: the panic hits
before the sensor is ever consulted. -/
theorem C10_flock_of_one_panics_witness :
    get_data (fun _ _ => (SensorResp.ready 42 : SensorResp Nat Nat)) 1 5
      (FlockState.mk [0] [] 0) = GdOut.panic :=
  C10_flock_of_one_panics.1 Nat Nat _ 1 5 _ (by decide)

/-- C1: for DIM ∈ {4,8} and TARGETS ∈ {1,2,3,4}, decoding places the raw
per-target element at flat index `(r*DIM+c)*TARGETS + t` into the typed
matrix at `[t][r][c]` (first for any per-target field via
`into_matrix_map_o`, then for `feed`'s distance matrix); and with DIM = 4,
TARGETS = 2, the buffer laid out from the known matrix `MC1` — whose zone
(r=1,c=2) has target-0 distance 1234 and target-1 distance 0 — decodes back
to exactly that matrix, with `distance_mm[0][1][2] = 1234` and
`distance_mm[1][1][2] = 0`. -/
theorem C1_flat_layout_roundtrip :
    (∀ (IN OUT : Type) (DIM TARGETS : Nat), (DIM = 4 ∨ DIM = 8) →
      1 ≤ TARGETS → TARGETS ≤ 4 →
      ∀ (raw : List IN) (f : IN → Option OUT) (out : List (List OUT)) (r c t : Nat),
        into_matrix_map_o DIM TARGETS raw t f = some out →
        r < DIM → c < DIM → t < TARGETS →
        (out.get? r).bind (fun row => row.get? c) =
          (raw.get? ((r * DIM + c) * TARGETS + t)).bind f) ∧
    (∀ (DIM TARGETS : Nat) (raw : VL53L5CX_ResultsData) (res : ResultsData)
        (tc : Int) (r c t : Nat),
        feed DIM TARGETS raw = some (res, tc) → r < DIM → c < DIM → t < TARGETS →
        mat3At res.distance_mm t r c =
          (raw.distance_mm.get? ((r * DIM + c) * TARGETS + t)).bind distance_from_i16) ∧
    (∀ t, t < 2 → ∀ r, r < 4 → ∀ c, c < 4 →
      (feed 4 2 rawC1).map (fun p => mat3At p.1.distance_mm t r c) =
        some (some (MC1 t r c).toNat)) ∧
    (feed 4 2 rawC1).map (fun p => mat3At p.1.distance_mm 0 1 2) = some (some 1234) ∧
    (feed 4 2 rawC1).map (fun p => mat3At p.1.distance_mm 1 1 2) = some (some 0) := by
  refine ⟨?_, ?_, by decide, by decide, by decide⟩
  · intro IN OUT DIM TARGETS _ _ _ raw f out r c t h hr hc ht
    exact into_matrix_map_o_at h hr hc ht
  · intro DIM TARGETS raw res tc r c t hfeed hr hc ht
    simp only [feed, Option.bind_eq_some] at hfeed
    obtain ⟨amb, hamb, spads, hspads, tdet, htdet, tstat, htstat, dist, hdist,
      sigma, hsigma, rfle, hrefl, sig, hsig, hmk⟩ := hfeed
    have hres : res = ResultsData.mk amb spads tdet tstat dist sigma rfle sig := by
      cases hmk
      rfl
    subst hres
    have hgt := mapO_get hdist (List.get?_range ht)
    cases hmt : into_matrix_map_o DIM TARGETS raw.distance_mm t distance_from_i16 with
    | none =>
        rw [hmt] at hgt
        rw [List.get?_eq_none] at hgt
        have : dist.length = TARGETS := by
          rw [mapO_length hdist, List.length_range]
        omega
    | some mt =>
        rw [hmt] at hgt
        unfold mat3At
        simp only [hgt, Option.some_bind]
        exact into_matrix_map_o_at hmt hr hc ht

/-- Witness for C1: the decoded matrix for the concrete buffer `rawC1`
reproduces the known value at zone (1,2), target 0. -/
theorem C1_flat_layout_roundtrip_witness :
    (feed 4 2 rawC1).map (fun p => mat3At p.1.distance_mm 0 1 2) =
      some (some (MC1 0 1 2).toNat) :=
  C1_flat_layout_roundtrip.2.2.1 0 (by decide) 1 (by decide) 2 (by decide)

/-- C5: the decoder reads only the needed prefix of each raw field — the
first DIM*DIM elements of zone-metadata fields and the first
DIM*DIM*TARGETS elements of per-target fields.  Two raw buffers agreeing on
those prefixes (and on the temperature scalar) decode identically, so
elements beyond the prefixes are never read. -/
theorem C5_decoder_reads_only_needed_prefixes :
    ∀ (DIM TARGETS : Nat) (raw1 raw2 : VL53L5CX_ResultsData),
      raw1.ambient_per_spad.take (DIM * DIM) =
        raw2.ambient_per_spad.take (DIM * DIM) →
      raw1.nb_spads_enabled.take (DIM * DIM) =
        raw2.nb_spads_enabled.take (DIM * DIM) →
      raw1.nb_target_detected.take (DIM * DIM) =
        raw2.nb_target_detected.take (DIM * DIM) →
      raw1.target_status.take (DIM * DIM * TARGETS) =
        raw2.target_status.take (DIM * DIM * TARGETS) →
      raw1.distance_mm.take (DIM * DIM * TARGETS) =
        raw2.distance_mm.take (DIM * DIM * TARGETS) →
      raw1.range_sigma_mm.take (DIM * DIM * TARGETS) =
        raw2.range_sigma_mm.take (DIM * DIM * TARGETS) →
      raw1.reflectance.take (DIM * DIM * TARGETS) =
        raw2.reflectance.take (DIM * DIM * TARGETS) →
      raw1.signal_per_spad.take (DIM * DIM * TARGETS) =
        raw2.signal_per_spad.take (DIM * DIM * TARGETS) →
      raw1.silicon_temp_degc = raw2.silicon_temp_degc →
      feed DIM TARGETS raw1 = feed DIM TARGETS raw2 := by
  intro DIM TARGETS raw1 raw2 h1 h2 h3 h4 h5 h6 h7 h8 h9
  unfold feed
  rw [into_matrix_congr DIM h1, into_matrix_congr DIM h2, into_matrix_congr DIM h3,
    mapO_congr (fun i _ =>
      into_matrix_map_o_congr DIM TARGETS i TargetStatus.from_uld h4),
    mapO_congr (fun i _ =>
      into_matrix_map_o_congr DIM TARGETS i distance_from_i16 h5),
    mapO_congr (fun i _ => into_matrix_o_congr DIM TARGETS i h6),
    mapO_congr (fun i _ => into_matrix_o_congr DIM TARGETS i h7),
    mapO_congr (fun i _ => into_matrix_o_congr DIM TARGETS i h8),
    h9]

/-- Witness for C5: `rawC5b` extends every field of `rawC1` with junk past
the needed prefix (including a negative distance at flat index 32); the
decodes coincide. -/
theorem C5_decoder_reads_only_needed_prefixes_witness :
    feed 4 2 rawC1 = feed 4 2 rawC5b :=
  C5_decoder_reads_only_needed_prefixes 4 2 rawC1 rawC5b (by decide) (by decide)
    (by decide) (by decide) (by decide) (by decide) (by decide) (by decide) rfl

/-! ## Scan-loop lemmas for the coordinator -/

theorem getD_set_self {l : List Nat} {i v : Nat} (h : i < l.length) :
    (l.set i v).getD i 0 = v := by
  rw [List.getD_eq_getElem?_getD, List.getElem?_set_self h]
  rfl

theorem getD_set_ne {l : List Nat} {i j v : Nat} (h : i ≠ j) :
    (l.set i v).getD j 0 = l.getD j 0 := by
  rw [List.getD_eq_getElem?_getD, List.getElem?_set_ne h,
    ← List.getD_eq_getElem?_getD]

theorem getD_replicate_zero {N i : Nat} : (List.replicate N 0).getD i 0 = 0 := by
  rw [List.getD_eq_getElem?_getD, List.getElem?_replicate]
  by_cases h : i < N <;> simp [h]

theorem bumpCounts_length : ∀ (idxs counts : List Nat),
    (bumpCounts counts idxs).length = counts.length := by
  intro idxs
  induction idxs with
  | nil => intro counts; rfl
  | cons i rest ih =>
      intro counts
      unfold bumpCounts
      rw [ih, List.length_set]

theorem bumpCounts_getD : ∀ (idxs counts : List Nat) (i : Nat), idxs.Nodup →
    (∀ j ∈ idxs, j < counts.length) →
    (bumpCounts counts idxs).getD i 0 =
      counts.getD i 0 + (if i ∈ idxs then 1 else 0) := by
  intro idxs
  induction idxs with
  | nil => intro counts i _ _; simp [bumpCounts]
  | cons j rest ih =>
      intro counts i hnd hb
      unfold bumpCounts
      rw [ih _ i (List.nodup_cons.mp hnd).2
        (fun x hx => by rw [List.length_set]; exact hb x (by simp [hx]))]
      by_cases hij : i = j
      · subst hij
        rw [getD_set_self (hb i (by simp))]
        have hni : i ∉ rest := (List.nodup_cons.mp hnd).1
        simp [hni]
      · rw [getD_set_ne (fun h => hij h.symm)]
        simp only [List.mem_cons]
        have : (i = j ∨ i ∈ rest) ↔ i ∈ rest := by
          constructor
          · intro h; cases h with
            | inl h => exact absurd h hij
            | inr h => exact h
          · intro h; exact Or.inr h
        rw [if_congr this rfl rfl]

/-- Fact about `checkOne` with an ok outcome: the counts are bumped at `i` and the
pending queue is unchanged or extended by the one complete tuple. -/
theorem checkOne_ok {R E : Type} {oracle : Nat → Nat → SensorResp R E}
    {N i : Nat} {st st1 : FlockState R}
    (h : checkOne oracle N i st = ScanOut.ok st1) :
    st1.counts = st.counts.set i (st.counts.getD i 0 + 1) ∧
    (st1.pending = st.pending ∨
      ∃ x, st1.pending = st.pending ++ [x]) := by
  simp only [checkOne] at h
  cases horc : oracle i (st.counts.getD i 0) <;> rw [horc] at h
  case notReady =>
      cases h
      exact ⟨rfl, Or.inl rfl⟩
  case ready r =>
      by_cases hlen : st.pending.length < N
      · simp only [if_pos hlen] at h
        cases h
        exact ⟨rfl, Or.inr ⟨_, rfl⟩⟩
      · simp only [if_neg hlen] at h
        cases h
  case readyFetchErr e => cases h
  case readyErr e => cases h

/-- Fact about `checkOne` with a fail outcome: the counts are bumped at `i` and the
pending queue is unchanged (no partially constructed entry is pushed). -/
theorem checkOne_fail {R E : Type} {oracle : Nat → Nat → SensorResp R E}
    {N i : Nat} {st st1 : FlockState R} {e : E}
    (h : checkOne oracle N i st = ScanOut.fail e st1) :
    st1.counts = st.counts.set i (st.counts.getD i 0 + 1) ∧
    st1.pending = st.pending := by
  simp only [checkOne] at h
  cases horc : oracle i (st.counts.getD i 0) <;> rw [horc] at h
  case notReady => cases h
  case ready r =>
      by_cases hlen : st.pending.length < N
      · simp only [if_pos hlen] at h; cases h
      · simp only [if_neg hlen] at h; cases h
  case readyFetchErr e1 =>
      cases h
      exact ⟨rfl, rfl⟩
  case readyErr e1 =>
      cases h
      exact ⟨rfl, rfl⟩

/-- Whether the scan completes or fails part-way, the pending queue is only
ever extended: the entries already queued are kept, in place, and only
complete entries are appended after them. -/
theorem scanDesc_extends {R E : Type} (oracle : Nat → Nat → SensorResp R E)
    (N : Nat) : ∀ (idxs : List Nat) (st st1 : FlockState R),
    (scanDesc oracle N idxs st = ScanOut.ok st1 ∨
      ∃ e, scanDesc oracle N idxs st = ScanOut.fail e st1) →
    ∃ l, st1.pending = st.pending ++ l := by
  intro idxs
  induction idxs with
  | nil =>
      intro st st1 h
      cases h with
      | inl h => cases h; exact ⟨[], by simp⟩
      | inr h => obtain ⟨e, h⟩ := h; cases h
  | cons i rest ih =>
      intro st st1 h
      cases hco : checkOne oracle N i st with
      | ok st2 =>
          have hrest : scanDesc oracle N (i :: rest) st = scanDesc oracle N rest st2 := by
            simp only [scanDesc, hco]
          rw [hrest] at h
          obtain ⟨l1, hl1⟩ := ih st2 st1 h
          obtain ⟨-, hp⟩ := checkOne_ok hco
          cases hp with
          | inl hp => exact ⟨l1, by rw [hl1, hp]⟩
          | inr hp =>
              obtain ⟨x, hp⟩ := hp
              exact ⟨x :: l1, by rw [hl1, hp, List.append_assoc]; rfl⟩
      | fail e st2 =>
          have heq : scanDesc oracle N (i :: rest) st = ScanOut.fail e st2 := by
            simp only [scanDesc, hco]
          rw [heq] at h
          have hst : st1 = st2 := by
            cases h with
            | inl h => cases h
            | inr h => obtain ⟨e1, h⟩ := h; cases h; rfl
          subst hst
          obtain ⟨-, hp⟩ := checkOne_fail hco
          exact ⟨[], by rw [hp]; simp⟩
      | panic =>
          have heq : scanDesc oracle N (i :: rest) st = ScanOut.panic := by
            simp only [scanDesc, hco]
          rw [heq] at h
          cases h with
          | inl h => cases h
          | inr h => obtain ⟨e1, h⟩ := h; cases h

/-- A completed scan checks every listed sensor exactly once: its readiness
count is incremented by one, every other count is untouched, and the counts
vector keeps its length. -/
theorem scanDesc_ok_counts {R E : Type} (oracle : Nat → Nat → SensorResp R E)
    (N : Nat) : ∀ (idxs : List Nat) (st st1 : FlockState R),
    scanDesc oracle N idxs st = ScanOut.ok st1 → idxs.Nodup →
    (∀ i ∈ idxs, i < st.counts.length) →
    st1.counts.length = st.counts.length ∧
    (∀ i, st1.counts.getD i 0 =
      st.counts.getD i 0 + (if i ∈ idxs then 1 else 0)) := by
  intro idxs
  induction idxs with
  | nil =>
      intro st st1 h _ _
      cases h
      exact ⟨rfl, fun i => by simp⟩
  | cons j rest ih =>
      intro st st1 h hnd hb
      cases hco : checkOne oracle N j st with
      | ok st2 =>
          have hrest : scanDesc oracle N rest st2 = ScanOut.ok st1 := by
            rw [show scanDesc oracle N (j :: rest) st = scanDesc oracle N rest st2 by
              simp only [scanDesc, hco]] at h
            exact h
          obtain ⟨hc2, -⟩ := checkOne_ok hco
          have hlen2 : st2.counts.length = st.counts.length := by
            rw [hc2, List.length_set]
          obtain ⟨hlen, hval⟩ := ih st2 st1 hrest (List.nodup_cons.mp hnd).2
            (fun x hx => by rw [hlen2]; exact hb x (by simp [hx]))
          refine ⟨by rw [hlen, hlen2], fun i => ?_⟩
          rw [hval i, hc2]
          by_cases hij : i = j
          · subst hij
            rw [getD_set_self (hb i (by simp))]
            have hni : i ∉ rest := (List.nodup_cons.mp hnd).1
            simp [hni]
          · rw [getD_set_ne (fun hji => hij hji.symm)]
            simp only [List.mem_cons]
            have : (i = j ∨ i ∈ rest) ↔ i ∈ rest := by
              constructor
              · intro hx; cases hx with
                | inl hx => exact absurd hx hij
                | inr hx => exact hx
              · intro hx; exact Or.inr hx
            rw [if_congr this rfl rfl]
      | fail e st2 =>
          rw [show scanDesc oracle N (j :: rest) st = ScanOut.fail e st2 by
            simp only [scanDesc, hco]] at h
          cases h
      | panic =>
          rw [show scanDesc oracle N (j :: rest) st = ScanOut.panic by
            simp only [scanDesc, hco]] at h
          cases h

/-- A scan over sensors that are all ready: every sensor is checked once,
one complete tuple per sensor is pushed in scan order with consecutive
timestamps, and the clock advances once per push. -/
theorem scanDesc_all_ready {R E : Type} (oracle : Nat → Nat → SensorResp R E)
    (N : Nat) (r : Nat → R) : ∀ (idxs : List Nat) (st : FlockState R),
    idxs.Nodup → (∀ i ∈ idxs, i < st.counts.length) →
    (∀ i ∈ idxs, oracle i (st.counts.getD i 0) = SensorResp.ready (r i)) →
    st.pending.length + idxs.length ≤ N →
    scanDesc oracle N idxs st =
      ScanOut.ok (FlockState.mk (bumpCounts st.counts idxs)
        (st.pending ++ pushesFrom r idxs st.clock) (st.clock + idxs.length)) := by
  intro idxs
  induction idxs with
  | nil =>
      intro st _ _ _ _
      simp [scanDesc, bumpCounts, pushesFrom]
  | cons i rest ih =>
      intro st hnd hb hready hcap
      have hco : checkOne oracle N i st =
          ScanOut.ok (FlockState.mk (st.counts.set i (st.counts.getD i 0 + 1))
            (st.pending ++ [(i, r i, st.clock)]) (st.clock + 1)) := by
        simp only [checkOne, hready i (by simp)]
        rw [if_pos (by simp at hcap; omega)]
      rw [show scanDesc oracle N (i :: rest) st =
          scanDesc oracle N rest (FlockState.mk
            (st.counts.set i (st.counts.getD i 0 + 1))
            (st.pending ++ [(i, r i, st.clock)]) (st.clock + 1)) by
        simp only [scanDesc, hco]]
      rw [ih _ (List.nodup_cons.mp hnd).2
        (fun x hx => by
          simp only [List.length_set]
          exact hb x (by simp [hx]))
        (fun x hx => by
          have hxi : x ≠ i := fun hxe => (List.nodup_cons.mp hnd).1 (hxe ▸ hx)
          rw [getD_set_ne (fun hie => hxi hie.symm)]
          exact hready x (by simp [hx]))
        (by simp at hcap ⊢; omega)]
      simp only [bumpCounts, pushesFrom, List.append_assoc, List.singleton_append]
      have hclock : st.clock + 1 + rest.length = st.clock + (rest.length + 1) := by omega
      rw [hclock]
      simp [List.length_cons]

/-- A scan over sensors none of which is ready: only the counts change. -/
theorem scanDesc_none_ready {R E : Type} (oracle : Nat → Nat → SensorResp R E)
    (N : Nat) : ∀ (idxs : List Nat) (st : FlockState R),
    (∀ i ∈ idxs, oracle i (st.counts.getD i 0) = SensorResp.notReady) →
    idxs.Nodup →
    scanDesc oracle N idxs st =
      ScanOut.ok (FlockState.mk (bumpCounts st.counts idxs) st.pending st.clock) := by
  intro idxs
  induction idxs with
  | nil =>
      intro st _ _
      simp [scanDesc, bumpCounts]
  | cons i rest ih =>
      intro st hnr hnd
      have hco : checkOne oracle N i st =
          ScanOut.ok (FlockState.mk (st.counts.set i (st.counts.getD i 0 + 1))
            st.pending st.clock) := by
        simp only [checkOne, hnr i (by simp)]
      rw [show scanDesc oracle N (i :: rest) st =
          scanDesc oracle N rest (FlockState.mk
            (st.counts.set i (st.counts.getD i 0 + 1)) st.pending st.clock) by
        simp only [scanDesc, hco]]
      rw [ih _ (fun x hx => by
          have hxi : x ≠ i := fun hxe => (List.nodup_cons.mp hnd).1 (hxe ▸ hx)
          rw [getD_set_ne (fun hie => hxi hie.symm)]
          exact hnr x (by simp [hx]))
        (List.nodup_cons.mp hnd).2]
      simp only [bumpCounts]

theorem pushesFrom_length {R : Type} (r : Nat → R) :
    ∀ (idxs : List Nat) (clock : Nat),
      (pushesFrom r idxs clock).length = idxs.length := by
  intro idxs
  induction idxs with
  | nil => intro clock; rfl
  | cons i rest ih =>
      intro clock
      simp [pushesFrom, ih]

/-- Reversing the pushes of a descending full scan yields one entry per
sensor in ascending order, with timestamps decreasing from the clock base:
sensor `j` was pushed `N-1-j` ticks after the scan began. -/
theorem pushesFrom_range_rev {R : Type} (r : Nat → R) :
    ∀ (N clock : Nat),
      (pushesFrom r (List.range N).reverse clock).reverse =
        (List.range N).map (fun j => (j, r j, clock + (N - 1 - j))) := by
  intro N
  induction N with
  | zero => intro clock; rfl
  | succ m ih =>
      intro clock
      have hsplit : (List.range (m + 1)).reverse = m :: (List.range m).reverse := by
        rw [List.range_succ, List.reverse_append]
        simp
      rw [hsplit]
      simp only [pushesFrom, List.reverse_cons, ih]
      rw [List.range_succ, List.map_append]
      have h1 : (List.range m).map (fun j => (j, r j, clock + 1 + (m - 1 - j))) =
          (List.range m).map (fun j => (j, r j, clock + (m + 1 - 1 - j))) :=
        List.map_congr_left (fun j hj => by
          have : j < m := List.mem_range.mp hj
          have he : clock + 1 + (m - 1 - j) = clock + (m + 1 - 1 - j) := by omega
          rw [he])
      rw [h1]
      simp

/-- Draining the pending queue: with every sensor already checked at least
once and nothing new becoming ready, `p.length` consecutive calls return
exactly the pending entries in reverse (last-in-first-out) order, emptying
the queue without touching the clock. -/
theorem drain_lifo {R E : Type} (oracle : Nat → Nat → SensorResp R E) (N : Nat)
    (hN : 2 ≤ N) (hnr : ∀ i k, 1 ≤ k → oracle i k = SensorResp.notReady) :
    ∀ (p : List (Nat × R × Nat)) (counts : List Nat) (clock : Nat),
      counts.length = N → (∀ i, i < N → 1 ≤ counts.getD i 0) →
      ∃ cf, run_calls oracle N 1 p.length (FlockState.mk counts p clock) =
          some (p.reverse, FlockState.mk cf [] clock) ∧
        cf.length = N ∧ (∀ i, i < N → 1 ≤ cf.getD i 0) := by
  intro p
  induction p using List.reverseRecOn with
  | nil =>
      intro counts clock hlen hge
      exact ⟨counts, rfl, hlen, hge⟩
  | append_singleton xs x ih =>
      intro counts clock hlen hge
      have hnd : ((List.range N).reverse).Nodup :=
        List.nodup_reverse.mpr (List.nodup_range N)
      have hbound : ∀ i ∈ (List.range N).reverse, i < counts.length := by
        intro i hi
        rw [hlen]
        exact List.mem_range.mp (List.mem_reverse.mp hi)
      have hscan := scanDesc_none_ready oracle N (List.range N).reverse
        (FlockState.mk counts (xs ++ [x]) clock)
        (fun i hi => hnr i _ (hge i (List.mem_range.mp (List.mem_reverse.mp hi))))
        hnd
      have hstep : get_data oracle N 1 (FlockState.mk counts (xs ++ [x]) clock) =
          GdOut.ret x (FlockState.mk (bumpCounts counts (List.range N).reverse)
            xs clock) := by
        unfold get_data
        rw [if_neg (by omega)]
        unfold get_data_loop get_data_step
        rw [hscan]
        simp only [List.getLast?_concat, List.dropLast_concat]
      have hge2 : ∀ i, i < N → 1 ≤ (bumpCounts counts (List.range N).reverse).getD i 0 := by
        intro i hi
        rw [bumpCounts_getD (List.range N).reverse counts i hnd hbound]
        have := hge i hi
        by_cases hmem : i ∈ (List.range N).reverse
        · rw [if_pos hmem]; omega
        · rw [if_neg hmem]; omega
      obtain ⟨cf, hrun, hcl, hcge⟩ := ih (bumpCounts counts (List.range N).reverse)
        clock (by rw [bumpCounts_length]; exact hlen) hge2
      refine ⟨cf, ?_, hcl, hcge⟩
      have hm : (xs ++ [x]).length = xs.length + 1 := by simp
      rw [hm]
      simp only [run_calls, hstep, hrun, Option.some_bind]
      simp [List.reverse_append]

/-- C6: an `is_ready` or fetch error during the scan propagates out of the
`get_data` call as a recoverable error — the loop is not continued,
whatever fuel remains — and the pending queue after the failing call holds
exactly what it held before plus the complete entries pushed earlier in
that same scan; no partially constructed entry is pushed.  Concretely
(N = 3): sensor 2 ready, sensor 1 ready but failing on fetch, sensor 0 also
ready: the call fails with sensor 1's error, the queue gains exactly sensor
2's complete tuple, and sensor 0 is never checked (its count stays 0). -/
theorem C6_scan_error_propagates :
    (∀ (R E : Type) (oracle : Nat → Nat → SensorResp R E) (N fuel : Nat)
        (st st1 : FlockState R) (e : E), 2 ≤ N →
        scanDesc oracle N (List.range N).reverse st = ScanOut.fail e st1 →
        get_data oracle N (fuel + 1) st = GdOut.fail e st1 ∧
        ∃ l, st1.pending = st.pending ++ l) ∧
    get_data oracleC6 3 1 st3 =
      GdOut.fail 99 (FlockState.mk [0, 1, 1] [(2, 20, 0)] 2) := by
  constructor
  · intro R E oracle N fuel st st1 e hN hscan
    constructor
    · unfold get_data
      rw [if_neg (by omega)]
      unfold get_data_loop get_data_step
      rw [hscan]
    · exact scanDesc_extends oracle N _ st st1 (Or.inr ⟨e, hscan⟩)
  · decide

/-- Witness for C6: the concrete three-sensor scenario, run through the
general propagation statement with one unit of leftover fuel. -/
theorem C6_scan_error_propagates_witness :
    get_data oracleC6 3 2 st3 =
      GdOut.fail 99 (FlockState.mk [0, 1, 1] [(2, 20, 0)] 2) ∧
    ∃ l, (FlockState.mk [0, 1, 1] [(2, 20, 0)] 2).pending = st3.pending ++ l :=
  C6_scan_error_propagates.1 Nat Nat oracleC6 3 1 st3
    (FlockState.mk [0, 1, 1] [(2, 20, 0)] 2) 99 (by decide) (by decide)

/-- C8: within one `get_data` loop iteration the coordinator suspends only
after the scan has checked every sensor's readiness exactly once and both
the prior queue and the scan result are empty; and when it returns, the
full scan completed first — every sensor checked once, all scan results
appended to the queue after the prior entries — and the single returned
tuple is the most recently pushed one, popped after the whole scan. -/
theorem C8_full_scan_before_wait_or_return :
    ∀ (R E : Type) (oracle : Nat → Nat → SensorResp R E) (N : Nat)
      (st : FlockState R), st.counts.length = N →
      (∀ st1, get_data_step oracle N st = GdOut.wait st1 →
        st1.pending = [] ∧ st.pending = [] ∧
        (∀ i, i < N → st1.counts.getD i 0 = st.counts.getD i 0 + 1)) ∧
      (∀ t st2, get_data_step oracle N st = GdOut.ret t st2 →
        ∃ st1, scanDesc oracle N (List.range N).reverse st = ScanOut.ok st1 ∧
          (∀ i, i < N → st1.counts.getD i 0 = st.counts.getD i 0 + 1) ∧
          st1.pending.getLast? = some t ∧ st2.pending = st1.pending.dropLast ∧
          (∃ l, st1.pending = st.pending ++ l) ∧
          (2 ≤ N → get_data oracle N 1 st = GdOut.ret t st2)) := by
  intro R E oracle N st hlen
  have hnd : ((List.range N).reverse).Nodup :=
    List.nodup_reverse.mpr (List.nodup_range N)
  have hbound : ∀ i ∈ (List.range N).reverse, i < st.counts.length := by
    intro i hi
    rw [hlen]
    exact List.mem_range.mp (List.mem_reverse.mp hi)
  constructor
  · intro stw hw
    cases hscan : scanDesc oracle N (List.range N).reverse st with
    | panic => simp only [get_data_step, hscan] at hw; cases hw
    | fail e st2 => simp only [get_data_step, hscan] at hw; cases hw
    | ok st2 =>
        simp only [get_data_step, hscan] at hw
        cases hlast : st2.pending.getLast? with
        | some t => simp only [hlast] at hw; cases hw
        | none =>
            simp only [hlast] at hw
            have hes : st2 = stw := by injection hw
            subst hes
            have hpe : st2.pending = [] := List.getLast?_eq_none_iff.mp hlast
            obtain ⟨l, hl⟩ := scanDesc_extends oracle N _ st st2 (Or.inl hscan)
            have hstp : st.pending = [] := by
              rw [hpe] at hl
              exact (List.append_eq_nil.mp hl.symm).1
            obtain ⟨-, hcounts⟩ :=
              scanDesc_ok_counts oracle N _ st st2 hscan hnd hbound
            refine ⟨hpe, hstp, fun i hi => ?_⟩
            rw [hcounts i, if_pos (List.mem_reverse.mpr (List.mem_range.mpr hi))]
  · intro t st2 hr
    cases hscan : scanDesc oracle N (List.range N).reverse st with
    | panic => simp only [get_data_step, hscan] at hr; cases hr
    | fail e st1 => simp only [get_data_step, hscan] at hr; cases hr
    | ok st1 =>
        simp only [get_data_step, hscan] at hr
        cases hlast : st1.pending.getLast? with
        | none => simp only [hlast] at hr; cases hr
        | some t1 =>
            simp only [hlast] at hr
            have ht : t1 = t := by injection hr
            have hst2 : FlockState.mk st1.counts st1.pending.dropLast st1.clock = st2 := by
              injection hr
            subst ht
            obtain ⟨-, hcounts⟩ :=
              scanDesc_ok_counts oracle N _ st st1 hscan hnd hbound
            refine ⟨st1, rfl, fun i hi => by
                rw [hcounts i, if_pos (List.mem_reverse.mpr (List.mem_range.mpr hi))],
              hlast, by rw [← hst2], scanDesc_extends oracle N _ st st1 (Or.inl hscan), ?_⟩
            intro hN
            unfold get_data
            rw [if_neg (by omega)]
            unfold get_data_loop get_data_step
            rw [hscan]
            simp only [hlast, hst2]

/-- Witness for C8: two never-ready sensors make the step suspend after
checking each exactly once, with the queue empty throughout. -/
theorem C8_full_scan_before_wait_or_return_witness :
    (FlockState.mk [1, 1] ([] : List (Nat × Nat × Nat)) 0).pending = [] ∧
    (FlockState.mk [0, 0] ([] : List (Nat × Nat × Nat)) 0).pending = [] ∧
    (∀ i, i < 2 →
      (FlockState.mk [1, 1] ([] : List (Nat × Nat × Nat)) 0).counts.getD i 0 =
        (FlockState.mk [0, 0] ([] : List (Nat × Nat × Nat)) 0).counts.getD i 0 + 1) :=
  (C8_full_scan_before_wait_or_return Nat Nat (fun _ _ => SensorResp.notReady) 2
      (FlockState.mk [0, 0] [] 0) (by decide)).1
    (FlockState.mk [1, 1] [] 0) (by decide)

/-- C7: if all N sensors are ready simultaneously at the start of one scan
with the pending queue empty, that scan pushes exactly N complete entries
before any is returned, and the next N `get_data` calls return all N
results — sensor j with timestamp N-1-j, in ascending sensor order thanks
to LIFO popping of the descending scan — after which the queue is empty and
the next iteration suspends on the interrupt line. -/
theorem C7_simultaneous_ready_yields_N :
    ∀ (R E : Type) (oracle : Nat → Nat → SensorResp R E) (N : Nat) (r : Nat → R),
      2 ≤ N →
      (∀ i, i < N → oracle i 0 = SensorResp.ready (r i)) →
      (∀ i k, 1 ≤ k → oracle i k = SensorResp.notReady) →
      (∃ st1, scanDesc oracle N (List.range N).reverse
          (FlockState.mk (List.replicate N 0) [] 0) = ScanOut.ok st1 ∧
        st1.pending.length = N) ∧
      (∃ stf, run_calls oracle N 1 N (FlockState.mk (List.replicate N 0) [] 0) =
          some ((List.range N).map (fun j => (j, r j, N - 1 - j)), stf) ∧
        stf.pending = [] ∧ ∃ stw, get_data_step oracle N stf = GdOut.wait stw) := by
  intro R E oracle N r hN hready hnr
  cases N with
  | zero => exact absurd hN (by decide)
  | succ m =>
  have hnd : ((List.range (m + 1)).reverse).Nodup :=
    List.nodup_reverse.mpr (List.nodup_range (m + 1))
  have hmem : ∀ i ∈ (List.range (m + 1)).reverse, i < m + 1 :=
    fun i hi => List.mem_range.mp (List.mem_reverse.mp hi)
  have hlenrev : ((List.range (m + 1)).reverse).length = m + 1 := by simp
  have hscan := scanDesc_all_ready oracle (m + 1) r (List.range (m + 1)).reverse
    (FlockState.mk (List.replicate (m + 1) 0) [] 0) hnd
    (fun i hi => by
      show i < (List.replicate (m + 1) 0).length
      rw [List.length_replicate]
      exact hmem i hi)
    (fun i hi => by
      show oracle i ((List.replicate (m + 1) 0).getD i 0) = SensorResp.ready (r i)
      rw [getD_replicate_zero]
      exact hready i (hmem i hi))
    (by
      show List.length [] + ((List.range (m + 1)).reverse).length ≤ m + 1
      simp [hlenrev])
  simp only [List.nil_append, hlenrev, Nat.zero_add] at hscan
  constructor
  · exact ⟨_, hscan, by rw [pushesFrom_length, hlenrev]⟩
  · -- structure of the pushed queue
    have hPrev := pushesFrom_range_rev r (m + 1) 0
    simp only [Nat.zero_add] at hPrev
    have hL : (List.range (m + 1)).map (fun j => (j, r j, m + 1 - 1 - j)) =
        (0, r 0, m + 1 - 1 - 0) ::
          (List.range m).map ((fun j => (j, r j, m + 1 - 1 - j)) ∘ Nat.succ) := by
      rw [List.range_succ_eq_map, List.map_cons, List.map_map]
    have hP : pushesFrom r (List.range (m + 1)).reverse 0 =
        ((List.range m).map ((fun j => (j, r j, m + 1 - 1 - j)) ∘ Nat.succ)).reverse ++
          [(0, r 0, m + 1 - 1 - 0)] := by
      rw [← List.reverse_reverse (pushesFrom r (List.range (m + 1)).reverse 0),
        hPrev, hL, List.reverse_cons]
    have hget1 : get_data oracle (m + 1) 1
        (FlockState.mk (List.replicate (m + 1) 0) [] 0) =
        GdOut.ret (0, r 0, m + 1 - 1 - 0)
          (FlockState.mk (bumpCounts (List.replicate (m + 1) 0)
              (List.range (m + 1)).reverse)
            ((List.range m).map ((fun j => (j, r j, m + 1 - 1 - j)) ∘ Nat.succ)).reverse
            (m + 1)) := by
      unfold get_data
      rw [if_neg (by omega)]
      unfold get_data_loop get_data_step
      rw [hscan, hP]
      simp only [List.getLast?_concat, List.dropLast_concat]
    have hge1 : ∀ i, i < m + 1 →
        1 ≤ (bumpCounts (List.replicate (m + 1) 0)
          (List.range (m + 1)).reverse).getD i 0 := by
      intro i hi
      rw [bumpCounts_getD (List.range (m + 1)).reverse (List.replicate (m + 1) 0) i hnd
        (fun j hj => by rw [List.length_replicate]; exact hmem j hj)]
      rw [getD_replicate_zero, if_pos (List.mem_reverse.mpr (List.mem_range.mpr hi))]
    obtain ⟨cf, hrun, hcfl, hcfge⟩ := drain_lifo oracle (m + 1) hN hnr
      ((List.range m).map ((fun j => (j, r j, m + 1 - 1 - j)) ∘ Nat.succ)).reverse
      (bumpCounts (List.replicate (m + 1) 0) (List.range (m + 1)).reverse) (m + 1)
      (by rw [bumpCounts_length, List.length_replicate]) hge1
    have hQlen : (((List.range m).map
        ((fun j => (j, r j, m + 1 - 1 - j)) ∘ Nat.succ)).reverse).length = m := by
      simp
    rw [hQlen] at hrun
    refine ⟨FlockState.mk cf [] (m + 1), ?_, rfl, ?_⟩
    · simp only [run_calls, hget1, hrun, Option.some_bind, List.reverse_reverse]
      rw [hL]
    · have hscan2 := scanDesc_none_ready oracle (m + 1) (List.range (m + 1)).reverse
        (FlockState.mk cf [] (m + 1))
        (fun i hi => hnr i _ (hcfge i (hmem i hi))) hnd
      refine ⟨FlockState.mk (bumpCounts cf (List.range (m + 1)).reverse) [] (m + 1), ?_⟩
      unfold get_data_step
      rw [hscan2]
      rfl

/-- Witness for C7 at N = 3 with payloads `10*i`. -/
theorem C7_simultaneous_ready_yields_N_witness :
    (∃ st1, scanDesc oracleC7 3 (List.range 3).reverse
        (FlockState.mk (List.replicate 3 0) [] 0) = ScanOut.ok st1 ∧
      st1.pending.length = 3) ∧
    (∃ stf, run_calls oracleC7 3 1 3 (FlockState.mk (List.replicate 3 0) [] 0) =
        some ((List.range 3).map (fun j => (j, 10 * j, 3 - 1 - j)), stf) ∧
      stf.pending = [] ∧ ∃ stw, get_data_step oracleC7 3 stf = GdOut.wait stw) :=
  C7_simultaneous_ready_yields_N Nat Nat oracleC7 3 (fun i => 10 * i) (by decide)
    (by decide)
    (fun i k hk => by
      simp only [oracleC7]
      rw [if_neg (by omega)])

end Zoo
